import Mathlib

/-!
Verification of the Multi-Video-Compressor batch driver (src/main.py).

Strings from the Python source are modelled as Lean `String`s; where the
proofs need to compute character by character we work on the underlying
`List Char` (`String.data`).  Rational numbers stand in for Python floats:
all the arithmetic the claims touch (division, `min`, comparison with 0)
is exact on the values involved.  External effects (the filesystem walk,
the ffprobe/ffmpeg subprocesses, wall-clock time, the cancellation flag)
are passed in explicitly as data.
-/

namespace MVC

/-! ## Character-list utilities (models of Python str primitives) -/

/-- Lexicographic comparison of character lists by code point; this is the
total order Python's `sorted` uses on `str`. -/
def lexLe : List Char → List Char → Bool
  | [], _ => true
  | _ :: _, [] => false
  | a :: as, b :: bs => if a = b then lexLe as bs else decide (a < b)

/-- Lexicographic order on strings (Python string comparison). -/
def strLe (a b : String) : Bool := lexLe a.data b.data

/-- Model of `line.startswith(p)`. -/
def startsWithChars : List Char → List Char → Bool
  | [], _ => true
  | _ :: _, [] => false
  | p :: ps, c :: cs => p = c && startsWithChars ps cs

/-- Model of Python `str.split(c)`: split on every occurrence of `c`,
keeping empty segments. -/
def splitOnChar (c : Char) : List Char → List (List Char)
  | [] => [[]]
  | x :: xs =>
    if x = c then [] :: splitOnChar c xs
    else
      match splitOnChar c xs with
      | [] => [[x]]
      | h :: t => (x :: h) :: t

/-- Model of Python `str.strip()`: drop whitespace from both ends. -/
def trimChars (cs : List Char) : List Char :=
  ((cs.dropWhile Char.isWhitespace).reverse.dropWhile Char.isWhitespace).reverse

/-- Numeric value of a digit string (most significant first). -/
def digitsVal (cs : List Char) : ℕ :=
  cs.foldl (fun a c => a * 10 + (c.toNat - 48)) 0

/-- Parse a non-empty all-digit string, else `none`. -/
def parseDigits (cs : List Char) : Option ℕ :=
  if cs ≠ [] ∧ cs.all (·.isDigit) then some (digitsVal cs) else none

/-- Model of Python `int(s)` on a stripped string: an optional sign
followed by at least one digit. -/
def parsePyInt (cs : List Char) : Option ℤ :=
  match trimChars cs with
  | '-' :: rest => (parseDigits rest).map fun n => -(n : ℤ)
  | '+' :: rest => (parseDigits rest).map fun n => (n : ℤ)
  | rest => (parseDigits rest).map fun n => (n : ℤ)

/-- Unsigned part of Python `float(s)`: `digits`, `digits.digits`,
`.digits` or `digits.`. -/
def parseUFloat (cs : List Char) : Option ℚ :=
  let ip := cs.takeWhile (·.isDigit)
  match cs.dropWhile (·.isDigit) with
  | [] => if ip = [] then none else some (digitsVal ip)
  | '.' :: rest2 =>
    let fp := rest2.takeWhile (·.isDigit)
    match rest2.dropWhile (·.isDigit) with
    | [] =>
      if ip = [] ∧ fp = [] then none
      else some ((digitsVal ip : ℚ) + (digitsVal fp : ℚ) / (10 : ℚ) ^ fp.length)
    | _ => none
  | _ => none

/-- Model of Python `float(s)` on decimal notation: optional sign then an
unsigned decimal.  (Exponent forms never occur in the telemetry or probe
output the program reads.) -/
def parsePyFloat (cs : List Char) : Option ℚ :=
  match trimChars cs with
  | '-' :: rest => (parseUFloat rest).map fun q => -q
  | '+' :: rest => parseUFloat rest
  | rest => parseUFloat rest

/-! ## Path utilities (models of os.path primitives) -/

/-- Index of the last occurrence of `c`, if any. -/
def lastIdxOf (c : Char) : List Char → Option ℕ
  | [] => none
  | x :: xs =>
    match lastIdxOf c xs with
    | some i => some (i + 1)
    | none => if x = c then some 0 else none

/-- The extension part of `os.path.splitext` on a bare filename: the
suffix from the last dot, unless every character before that dot is
itself a dot (leading dots do not start an extension). -/
def splitextExt (cs : List Char) : List Char :=
  match lastIdxOf '.' cs with
  | none => []
  | some i => if (cs.take i).all (· = '.') then [] else cs.drop i

/-- Split a path into (prefix up to and including the last separator,
basename). -/
def basenameSplit (cs : List Char) : List Char × List Char :=
  match lastIdxOf '/' cs with
  | none => ([], cs)
  | some i => (cs.take (i + 1), cs.drop (i + 1))

/-- `os.path.splitext(p)[1]` for a path: extension of the basename. -/
def pathExt (cs : List Char) : List Char :=
  splitextExt (basenameSplit cs).2

/-- `os.path.splitext(p)[0]` for a path: everything except the extension. -/
def pathStem (cs : List Char) : List Char :=
  let b := (basenameSplit cs).2
  (basenameSplit cs).1 ++ b.take (b.length - (splitextExt b).length)

/-- Model of `os.path.dirname`: everything strictly before the last
separator (empty when there is none). -/
def dirnameStr (s : String) : String :=
  match lastIdxOf '/' s.data with
  | none => ""
  | some i => String.mk (s.data.take i)

/-- Model of `os.path.join(root, name)` for a relative `name`. -/
def pathJoin (root name : String) : String :=
  if root = "" then name
  else if root.data.getLast? = some '/' then root ++ name
  else root ++ "/" ++ name

/-- Lower-case a string character by character (ASCII suffices for the
extension allow-list). -/
def lowerStr (s : String) : String := String.mk (s.data.map Char.toLower)

/-! ## Progress parser (src/main.py, compress_video loop lines 544-559)

The loop reads stripped lines from the encoder's stdout.  On a line
starting with `out_time_ms=` it converts the value after the first `=`
from microseconds to seconds and, when the probed duration is positive,
emits `min(100, (current_time / duration) * 100)`.  Any parse failure in
that block is swallowed (`except Exception: pass`). -/

/-- One iteration of the telemetry loop on an already-stripped line:
`some p` when a per-file progress percentage `p` is emitted. -/
def processLine (duration : ℚ) (line : List Char) : Option ℚ :=
  if startsWithChars "out_time_ms=".data line then
    match parsePyFloat ((splitOnChar '=' line).getD 1 []) with
    | some t =>
      let current := t / 1000000
      if 0 < duration then some (min 100 (current / duration * 100)) else none
    | none => none
  else none

/-- All per-file progress percentages emitted while draining the given
telemetry lines. -/
def progressUpdates (duration : ℚ) (lines : List (List Char)) : List ℚ :=
  lines.filterMap (processLine duration)

/-! ## Constants and settings (src/main.py lines 35-55, 68-73) -/

/-- `VIDEO_EXTENSIONS` from the source. -/
def VIDEO_EXTENSIONS : List String :=
  [".mp4", ".mov", ".avi", ".mkv", ".wmv", ".flv", ".webm", ".m4v", ".3gp"]

/-- The output-format combobox is read-only over `OUTPUT_FORMATS`. -/
inductive OutputFormat
  | mp4
  | mkv
  | webm
deriving DecidableEq

/-- The string the combobox holds for each format. -/
def OutputFormat.str : OutputFormat → String
  | .mp4 => "mp4"
  | .mkv => "mkv"
  | .webm => "webm"

/-- The quality combobox is read-only over the keys of `QUALITY_LEVELS`. -/
inductive QualityPreset
  | High
  | Medium
  | Low
  | Custom
deriving DecidableEq

/-- The `QUALITY_LEVELS` dict from the source. -/
def QUALITY_LEVELS : QualityPreset → String
  | .High => "18"
  | .Medium => "23"
  | .Low => "28"
  | .Custom => "custom"

/-- The resolution combobox is read-only over `RESOLUTIONS`. -/
inductive Resolution
  | Original
  | R4K
  | R1080
  | R720
  | R480
deriving DecidableEq

/-- The string the combobox holds for each resolution. -/
def Resolution.display : Resolution → String
  | .Original => "Original"
  | .R4K => "4K (3840x2160)"
  | .R1080 => "1080p (1920x1080)"
  | .R720 => "720p (1280x720)"
  | .R480 => "480p (854x480)"

/-! ## File discoverer (src/main.py, find_video_files lines 367-378, and
the input-directory gate in validate_inputs lines 328-332)

`os.walk` is modelled as the list of `(root, filename)` pairs it yields;
the filesystem is a record of the query functions the code calls. -/

/-- The extension filter applied to each walked filename. -/
def isVideoFile (name : String) : Bool :=
  VIDEO_EXTENSIONS.contains (lowerStr (String.mk (splitextExt name.data)))

/-- `find_video_files`: join root and name for every walked file whose
lower-cased extension is in the allow-list, then sort.  Python's `sorted`
on strings is a stable sort under code-point lexicographic order. -/
def find_video_files (walk : List (String × String)) : List String :=
  List.insertionSort (fun a b => strLe a b = true)
    ((walk.filter fun e => isVideoFile e.2).map fun e => pathJoin e.1 e.2)

/-- The filesystem facts the validation code consults. -/
structure Env where
  isDir : String → Bool
  outDirExists : Bool
  mkdirOk : Bool
  walk : String → List (String × String)

/-- Error raised by the discoverer's directory gate. -/
inductive DiscoverError
  | NotADirectory
deriving DecidableEq

instance {ε α : Type} [DecidableEq ε] [DecidableEq α] : DecidableEq (Except ε α) := fun a b =>
  match a, b with
  | .ok x, .ok y => if h : x = y then isTrue (by rw [h]) else isFalse (by simp [h])
  | .error x, .error y => if h : x = y then isTrue (by rw [h]) else isFalse (by simp [h])
  | .ok _, .error _ => isFalse (by simp)
  | .error _, .ok _ => isFalse (by simp)

/-- The file-discoverer contract: the `os.path.isdir` gate of
validate_inputs followed by `find_video_files`. -/
def discover (env : Env) (d : String) : Except DiscoverError (List String) :=
  if d = "" ∨ env.isDir d = false then .error .NotADirectory
  else .ok (find_video_files (env.walk d))

/-! ## Input validation (src/main.py, validate_inputs lines 326-365 and
start_compression lines 414-431) -/

/-- The error taxonomy of the validation phase. -/
inductive VError
  | InvalidDirectory
  | NoVideoFiles
  | InvalidQuality
deriving DecidableEq

/-- The Custom-quality check: `int(custom_crf)` must succeed and lie in
`[0, 51]`. -/
def validateCustomCrf (s : String) : Bool :=
  match parsePyInt s.data with
  | some n => decide (0 ≤ n ∧ n ≤ 51)
  | none => false

/-- `validate_inputs`: input-directory check, output-directory check and
creation, file discovery, then the Custom-quality check; the first
failure wins and on success the discovered file list is returned. -/
def validate_inputs (env : Env) (inputDir outputDir : String)
    (q : QualityPreset) (customCrf : String) : Except VError (List String) :=
  if inputDir = "" ∨ env.isDir inputDir = false then .error .InvalidDirectory
  else if outputDir = "" then .error .InvalidDirectory
  else if env.outDirExists = false ∧ env.mkdirOk = false then .error .InvalidDirectory
  else
    let files := find_video_files (env.walk inputDir)
    if files = [] then .error .NoVideoFiles
    else if q = .Custom ∧ validateCustomCrf customCrf = false then .error .InvalidQuality
    else .ok files

/-- `start_compression`: a no-op while already processing, a no-op when
validation fails, otherwise the worker is started on the validated file
list (`some files`). -/
def start_compression (isProcessing : Bool) (env : Env) (inputDir outputDir : String)
    (q : QualityPreset) (customCrf : String) : Option (List String) :=
  if isProcessing then none
  else
    match validate_inputs env inputDir outputDir q customCrf with
    | .error _ => none
    | .ok files => some files

/-! ## Command builder (src/main.py, get_ffmpeg_command lines 380-413 and
the insertions in compress_video lines 530-535) -/

/-- Leftmost match of the pattern digits-`x`-digits, as `re.search`
finds it in the resolution display strings. -/
def findWxH : List Char → Option (List Char)
  | [] => none
  | c :: rest =>
    if c.isDigit then
      let d1 := (c :: rest).takeWhile (·.isDigit)
      match (c :: rest).dropWhile (·.isDigit) with
      | 'x' :: r2 =>
        match r2.takeWhile (·.isDigit) with
        | [] => findWxH rest
        | d2 => some (d1 ++ 'x' :: d2)
      | _ => findWxH rest
    else findWxH rest

/-- The `-vf scale=WxH` arguments: present when the resolution is not
Original and the regex finds a WxH group in its display string. -/
def scaleArgs (r : Resolution) : List String :=
  if r = .Original then []
  else
    match findWxH r.display.data with
    | some wh => ["-vf", "scale=" ++ String.mk wh]
    | none => []

/-- The format-specific codec arguments. -/
def codecArgs (fmt : OutputFormat) (crf : String) : List String :=
  match fmt with
  | .mp4 => ["-c:v", "libx264", "-crf", crf, "-preset", "medium"]
  | .webm => ["-c:v", "libvpx-vp9", "-crf", crf, "-b:v", "0"]
  | .mkv => ["-c:v", "libx264", "-crf", crf, "-preset", "medium"]

/-- `get_ffmpeg_command`: base arguments, optional scale filter, codec
arguments, audio arguments, output path. -/
def get_ffmpeg_command (q : QualityPreset) (customCrf : String) (r : Resolution)
    (fmt : OutputFormat) (input output : String) : List String :=
  let crf := if q = .Custom then customCrf else QUALITY_LEVELS q
  ["ffmpeg", "-i", input, "-y"] ++ scaleArgs r ++ codecArgs fmt crf
    ++ ["-c:a", "aac", "-b:a", "128k"] ++ [output]

/-- The vector actually executed: compress_video inserts `-progress` at
index 1 and `pipe:1` at index 2. -/
def fullCommand (q : QualityPreset) (customCrf : String) (r : Resolution)
    (fmt : OutputFormat) (input output : String) : List String :=
  List.insertIdx 2 "pipe:1"
    (List.insertIdx 1 "-progress" (get_ffmpeg_command q customCrf r fmt input output))

/-! ## Single-task compression (src/main.py, compress_video lines 517-575)

The two external subprocesses are modelled by their observable results:
the probe either raises (non-zero ffprobe exit makes `check_output`
throw `CalledProcessError`) or returns stdout text; the encoder is its
stripped telemetry lines plus an exit code. -/

/-- Result of the `subprocess.check_output` ffprobe call. -/
inductive ProbeResult
  | success (stdout : String)
  | failure

/-- Observable behaviour of the launched encoder process. -/
structure EncodeRun where
  lines : List (List Char)
  exitCode : ℤ

/-- What one `compress_video` call does: its return value, the progress
percentages it pushed, whether the encoder was launched at all, and
whether an error was surfaced on the status label. -/
structure CompressResult where
  ok : Bool
  updates : List ℚ
  encoderStarted : Bool
  errorReported : Bool
deriving DecidableEq

/-- `compress_video`.  A probe exception is caught by the outer
`except`, which reports an error and returns False without launching the
encoder.  A successful probe whose stdout does not parse as a float
yields duration 0.  The telemetry loop emits `progressUpdates`; a zero
exit appends the final 100 update and returns True, a non-zero exit
reports an error and returns False. -/
def compress_video (probe : ProbeResult) (enc : EncodeRun) : CompressResult :=
  match probe with
  | .failure =>
    { ok := false, updates := [], encoderStarted := false, errorReported := true }
  | .success out =>
    let duration := (parsePyFloat out.data).getD 0
    let ups := progressUpdates duration enc.lines
    if enc.exitCode = 0 then
      { ok := true, updates := ups ++ [100], encoderStarted := true, errorReported := false }
    else
      { ok := false, updates := ups, encoderStarted := true, errorReported := true }

/-! ## Batch driver (src/main.py, process_video_files lines 440-516)

Each task is summarised by its source (relative) path, the wall-clock
time its iteration takes, and whether `compress_video` returned True.
The cancellation flag is a function of how many tasks have been
attempted when it is read — the loop reads it once before each task and
once after the loop. -/

/-- Driver-visible summary of one file task. -/
structure TaskSpec where
  src : String
  dur : ℚ
  ok : Bool
deriving DecidableEq

/-- Filesystem-effect trace events of the driver loop. -/
inductive Ev
  | mkdir (dir : String)
  | run (src : String)
deriving DecidableEq

/-- The worker-loop state. -/
structure DriverState where
  processed : ℕ
  failed : ℕ
  elapsed : ℚ
  display : Option ℚ
  trace : List Ev
  attempted : ℕ
deriving DecidableEq

/-- State at `start_time`. -/
def initState : DriverState :=
  { processed := 0, failed := 0, elapsed := 0, display := none, trace := [], attempted := 0 }

/-- One loop iteration: create the destination directory, run
`compress_video`, bump the success or failure counter and, while at
least one file has been processed, recompute the time-remaining display
as `(elapsed / processed_files) * (total_files - processed_files)`. -/
def stepTask (total : ℕ) (destOf : String → String) (st : DriverState)
    (t : TaskSpec) : DriverState :=
  let elapsed := st.elapsed + t.dur
  let processed := if t.ok then st.processed + 1 else st.processed
  let failed := if t.ok then st.failed else st.failed + 1
  let display :=
    if 0 < processed then
      some (elapsed / (processed : ℚ) * ((total : ℚ) - (processed : ℚ)))
    else st.display
  { processed := processed, failed := failed, elapsed := elapsed,
    display := display,
    trace := st.trace ++ [Ev.mkdir (dirnameStr (destOf t.src)), Ev.run t.src],
    attempted := st.attempted + 1 }

/-- The `for input_file in self.video_files` loop: before each task the
cancellation flag is read and a `break` taken when it is set. -/
def runTasks (total : ℕ) (destOf : String → String) (cancel : ℕ → Bool) :
    List TaskSpec → DriverState → DriverState
  | [], st => st
  | t :: ts, st =>
    if cancel st.attempted then st
    else runTasks total destOf cancel ts (stepTask total destOf st t)

/-- Terminal state of a batch. -/
inductive BatchStatus
  | Completed
  | Cancelled
deriving DecidableEq

/-- A whole worker run: the loop over the full task list (total is the
list length, as `total_files = len(self.video_files)`), then the final
`if self.cancel_requested` dispatch between the cancelled and completed
status messages. -/
def runBatch (destOf : String → String) (cancel : ℕ → Bool)
    (tasks : List TaskSpec) : DriverState × BatchStatus :=
  let st := runTasks tasks.length destOf cancel tasks initState
  (st, if cancel st.attempted then .Cancelled else .Completed)

/-- The destination path derived for a source file's relative path:
mirror it under the output directory with the extension replaced by the
chosen output format. -/
def derivedDest (outDir : String) (fmt : OutputFormat) (rel : String) : String :=
  pathJoin outDir (String.mk (pathStem rel.data) ++ "." ++ fmt.str)

/-- The time-remaining display after the first `k` loop iterations of an
uncancelled batch over `tasks`. -/
def displayAfterPrefix (destOf : String → String) (tasks : List TaskSpec) (k : ℕ) : Option ℚ :=
  (runTasks tasks.length destOf (fun _ => false) (tasks.take k) initState).display

/-- Successful-task count of a task list. -/
def countOk (ts : List TaskSpec) : ℕ := (ts.filter fun t => t.ok).length

/-- Failed-task count of a task list. -/
def countFail (ts : List TaskSpec) : ℕ := (ts.filter fun t => !t.ok).length

/-- Total wall-clock time of a task list. -/
def sumDur (ts : List TaskSpec) : ℚ := (ts.map fun t => t.dur).sum

/-! ## Helper lemmas on the string primitives -/

theorem startsWithChars_append : ∀ (p rest : List Char), startsWithChars p (p ++ rest) = true := by
  intro p
  induction p with
  | nil => intro rest; rfl
  | cons x xs ih => intro rest; simp [startsWithChars, ih]

theorem splitOnChar_not_mem (sep : Char) :
    ∀ cs : List Char, (∀ c ∈ cs, c ≠ sep) → splitOnChar sep cs = [cs] := by
  intro cs
  induction cs with
  | nil => intro _; rfl
  | cons x xs ih =>
    intro h
    have hx : x ≠ sep := h x (by simp)
    have := ih fun c hc => h c (by simp [hc])
    simp [splitOnChar, hx, this]

theorem splitOnChar_append (sep : Char) :
    ∀ (pre rest : List Char), (∀ c ∈ pre, c ≠ sep) →
      splitOnChar sep (pre ++ sep :: rest) = pre :: splitOnChar sep rest := by
  intro pre
  induction pre with
  | nil =>
    intro rest _
    simp [splitOnChar]
  | cons x xs ih =>
    intro rest h
    have hx : x ≠ sep := h x (by simp)
    have hrec := ih rest fun c hc => h c (by simp [hc])
    simp [splitOnChar, hx, hrec]

/-- With a zero (unknown) probed duration the guard `duration > 0` fails
on every telemetry line, so no per-file update is emitted. -/
theorem processLine_zero (line : List Char) : processLine 0 line = none := by
  unfold processLine
  split
  · split
    · simp
    · rfl
  · rfl

/-! ## C1 and C10: progress parser theorems -/

/-- C1.  For a telemetry line `out_time_ms=<value>` whose payload parses
as the integer `n`, with probed duration `d > 0`, the emitted per-file
percentage is exactly `min 100 (100 * (n / 1000000) / d)`, and that value
never exceeds 100. -/
theorem claim_C1 (d : ℚ) (payload : List Char) (n : ℤ)
    (hd : 0 < d) (hp : parsePyFloat payload = some (n : ℚ))
    (hne : ∀ c ∈ payload, c ≠ '=') :
    processLine d ("out_time_ms=".data ++ payload)
      = some (min 100 (100 * ((n : ℚ) / 1000000) / d)) ∧
    min (100 : ℚ) (100 * ((n : ℚ) / 1000000) / d) ≤ 100 := by
  have hsplit : "out_time_ms=".data = "out_time_ms".data ++ '=' :: [] := by decide
  have hpre : ∀ c ∈ "out_time_ms".data, c ≠ '=' := by decide
  constructor
  · unfold processLine
    rw [if_pos (startsWithChars_append _ _)]
    have h1 : splitOnChar '=' ("out_time_ms=".data ++ payload)
        = "out_time_ms".data :: splitOnChar '=' payload := by
      rw [hsplit]
      simpa using splitOnChar_append '=' "out_time_ms".data payload hpre
    rw [h1, splitOnChar_not_mem '=' payload hne]
    simp only [List.getD_cons_succ, List.getD_cons_zero, hp]
    rw [if_pos hd]
    congr 1
    congr 1
    ring
  · exact min_le_left _ _

/-- Witness for C1: the line `out_time_ms=5000000` with probed
duration 10 emits exactly 50, and 50 does not exceed 100. -/
theorem claim_C1_witness :
    processLine 10 "out_time_ms=5000000".data = some 50 ∧ (50 : ℚ) ≤ 100 := by
  have hp : parsePyFloat "5000000".data = some ((5000000 : ℤ) : ℚ) := by
    simp +decide [parsePyFloat, trimChars, parseUFloat, digitsVal,
      List.dropWhile, List.takeWhile]
  have h := claim_C1 10 "5000000".data 5000000 (by norm_num) hp (by decide)
  have hline : "out_time_ms=".data ++ "5000000".data = "out_time_ms=5000000".data := by decide
  rw [hline] at h
  have hval : min (100 : ℚ) (100 * (((5000000 : ℤ) : ℚ) / 1000000) / 10) = 50 := by norm_num
  refine ⟨?_, by norm_num⟩
  rw [h.1, hval]

/-- C10.  When the probed duration is zero (unknown), draining any
telemetry stream emits no per-file percentage update at all: the
division is unreachable behind the `duration > 0` guard. -/
theorem claim_C10 (lines : List (List Char)) : progressUpdates 0 lines = [] := by
  unfold progressUpdates
  rw [List.filterMap_eq_nil_iff]
  intro line _
  exact processLine_zero line

/-! ## C2: custom quality validation -/

/-- C2.  With the Custom preset, validation accepts exactly the strings
parsing (as Python `int` does) to an integer in `[0, 51]`; "0" and "51"
pass, "-1", "52" and "abc" are rejected; and when the custom value is
rejected, validation fails with `InvalidQuality` (given the earlier
directory and file checks pass) and `start_compression` starts no task. -/
theorem claim_C2 (s : String) (env : Env) (inputDir outputDir crf : String)
    (h1 : inputDir ≠ "") (h2 : env.isDir inputDir = true) (h3 : outputDir ≠ "")
    (h4 : env.outDirExists = true ∨ env.mkdirOk = true)
    (h5 : find_video_files (env.walk inputDir) ≠ [])
    (hbad : validateCustomCrf crf = false) :
    (validateCustomCrf s = true ↔
      ∃ n : ℤ, parsePyInt s.data = some n ∧ 0 ≤ n ∧ n ≤ 51) ∧
    validate_inputs env inputDir outputDir .Custom crf = .error .InvalidQuality ∧
    start_compression false env inputDir outputDir .Custom crf = none ∧
    validateCustomCrf "0" = true ∧ validateCustomCrf "51" = true ∧
    validateCustomCrf "-1" = false ∧ validateCustomCrf "52" = false ∧
    validateCustomCrf "abc" = false := by
  have hval : validate_inputs env inputDir outputDir .Custom crf = .error .InvalidQuality := by
    unfold validate_inputs
    rw [if_neg (by simp [h1, h2]), if_neg h3,
      if_neg (by rcases h4 with h | h <;> simp [h]),
      if_neg h5, if_pos (by exact ⟨rfl, hbad⟩)]
  refine ⟨?_, hval, ?_, by decide, by decide, by decide, by decide, by decide⟩
  · unfold validateCustomCrf
    cases h : parsePyInt s.data with
    | none => simp [h]
    | some n => simp [h]
  · unfold start_compression
    rw [if_neg (by simp), hval]

/-- Witness for C2: a concrete environment where every earlier check
passes and the custom value "52" is rejected with `InvalidQuality`
before any task is started. -/
theorem claim_C2_witness :
    validate_inputs ⟨fun _ => true, true, true, fun _ => [("in", "a.mp4")]⟩
      "in" "out" .Custom "52" = .error .InvalidQuality ∧
    start_compression false ⟨fun _ => true, true, true, fun _ => [("in", "a.mp4")]⟩
      "in" "out" .Custom "52" = none ∧
    validateCustomCrf "0" = true ∧ validateCustomCrf "51" = true := by
  have h := claim_C2 "7" ⟨fun _ => true, true, true, fun _ => [("in", "a.mp4")]⟩
    "in" "out" "52" (by decide) rfl (by decide) (Or.inl rfl) (by decide) (by decide)
  exact ⟨h.2.1, h.2.2.1, h.2.2.2.1, h.2.2.2.2.1⟩

/-! ## C3: file discoverer -/

theorem lexLe_total : ∀ a b : List Char, lexLe a b = true ∨ lexLe b a = true := by
  intro a
  induction a with
  | nil => intro b; left; rfl
  | cons x xs ih =>
    intro b
    cases b with
    | nil => right; rfl
    | cons y ys =>
      by_cases hxy : x = y
      · subst hxy
        rcases ih ys with h | h
        · left; simp [lexLe, h]
        · right; simp [lexLe, h]
      · rcases lt_trichotomy x y with h | h | h
        · left; simp [lexLe, hxy, h]
        · exact absurd h hxy
        · right
          have hne : y ≠ x := fun hh => hxy hh.symm
          simp [lexLe, hne, h]

theorem lexLe_trans :
    ∀ a b c : List Char, lexLe a b = true → lexLe b c = true → lexLe a c = true := by
  intro a
  induction a with
  | nil => intro b c _ _; rfl
  | cons x xs ih =>
    intro b c hab hbc
    cases b with
    | nil => simp [lexLe] at hab
    | cons y ys =>
      cases c with
      | nil => simp [lexLe] at hbc
      | cons z zs =>
        by_cases hxy : x = y <;> by_cases hyz : y = z
        · subst hxy; subst hyz
          simp [lexLe] at hab hbc ⊢
          exact ih ys zs hab hbc
        · subst hxy
          simp [lexLe, hyz] at hbc
          have hxz : x ≠ z := fun h => hyz h
          simp [lexLe, hxz, hbc]
        · subst hyz
          simp [lexLe, hxy] at hab
          simp [lexLe, hxy, hab]
        · simp [lexLe, hxy] at hab
          simp [lexLe, hyz] at hbc
          have hxz : x < z := lt_trans hab hbc
          have hne : x ≠ z := ne_of_lt hxz
          simp [lexLe, hne, hxz]

theorem strLe_isTotal : IsTotal String fun a b => strLe a b = true :=
  ⟨fun a b => lexLe_total a.data b.data⟩

theorem strLe_isTrans : IsTrans String fun a b => strLe a b = true :=
  ⟨fun a b c => lexLe_trans a.data b.data c.data⟩

theorem find_video_files_sorted (walk : List (String × String)) :
    List.Sorted (fun a b => strLe a b = true) (find_video_files walk) := by
  have := strLe_isTotal
  have := strLe_isTrans
  exact List.sorted_insertionSort _ _

theorem find_video_files_perm (walk : List (String × String)) :
    (find_video_files walk).Perm
      ((walk.filter fun e => isVideoFile e.2).map fun e => pathJoin e.1 e.2) :=
  List.perm_insertionSort _ _

/-- C3.  The discoverer rejects a root that is empty or fails the
`isdir` check with `NotADirectory`; on a directory it returns a
lexicographically sorted sequence that is a permutation of — hence
contains exactly — the joined paths of the walked files whose
lower-cased extension is in the allow-list. -/
theorem claim_C3 (env : Env) (d : String) :
    (d = "" ∨ env.isDir d = false → discover env d = .error .NotADirectory) ∧
    (d ≠ "" → env.isDir d = true →
      ∃ l, discover env d = .ok l ∧
        List.Sorted (fun a b => strLe a b = true) l ∧
        l.Perm ((((env.walk d).filter fun e => isVideoFile e.2).map fun e => pathJoin e.1 e.2)) ∧
        ∀ p, p ∈ l ↔ ∃ e ∈ env.walk d, isVideoFile e.2 = true ∧ pathJoin e.1 e.2 = p) := by
  constructor
  · intro h
    unfold discover
    rw [if_pos h]
  · intro h1 h2
    refine ⟨find_video_files (env.walk d), ?_, find_video_files_sorted _,
      find_video_files_perm _, ?_⟩
    · unfold discover
      rw [if_neg (by simp [h1, h2])]
    · intro p
      rw [(find_video_files_perm (env.walk d)).mem_iff]
      simp only [List.mem_map, List.mem_filter]
      constructor
      · rintro ⟨e, ⟨he, hv⟩, hp⟩
        exact ⟨e, he, hv, hp⟩
      · rintro ⟨e, he, hv, hp⟩
        exact ⟨e, ⟨he, hv⟩, hp⟩

/-- Witness for C3: on a concrete walked tree the discoverer returns the
sorted allow-listed paths (the `.MKV` extension matches
case-insensitively, `c.txt` is dropped), and a non-directory root fails
with `NotADirectory`. -/
theorem claim_C3_witness :
    discover ⟨fun s => s == "in", true, true,
        fun _ => [("in", "b.mp4"), ("in", "a.MKV"), ("in", "c.txt"), ("in/sub", "d.webm")]⟩ "in"
      = .ok ["in/a.MKV", "in/b.mp4", "in/sub/d.webm"] ∧
    discover ⟨fun s => s == "in", true, true,
        fun _ => [("in", "b.mp4"), ("in", "a.MKV"), ("in", "c.txt"), ("in/sub", "d.webm")]⟩ "nodir"
      = .error .NotADirectory := by
  have h := claim_C3 ⟨fun s => s == "in", true, true,
    fun _ => [("in", "b.mp4"), ("in", "a.MKV"), ("in", "c.txt"), ("in/sub", "d.webm")]⟩ "in"
  obtain ⟨l, hok, _, hperm, _⟩ := h.2 (by decide) (by decide)
  constructor
  · have hconc : discover ⟨fun s => s == "in", true, true,
        fun _ => [("in", "b.mp4"), ("in", "a.MKV"), ("in", "c.txt"), ("in/sub", "d.webm")]⟩ "in"
        = .ok ["in/a.MKV", "in/b.mp4", "in/sub/d.webm"] := by decide
    exact hconc
  · exact (claim_C3 ⟨fun s => s == "in", true, true,
      fun _ => [("in", "b.mp4"), ("in", "a.MKV"), ("in", "c.txt"), ("in/sub", "d.webm")]⟩
      "nodir").1 (Or.inr (by decide))

/-! ## Helper lemmas on the batch driver -/

theorem countOk_cons (t : TaskSpec) (ts : List TaskSpec) :
    countOk (t :: ts) = (if t.ok then 1 else 0) + countOk ts := by
  unfold countOk
  cases h : t.ok <;> simp [List.filter_cons, h, Nat.add_comm]

theorem countFail_cons (t : TaskSpec) (ts : List TaskSpec) :
    countFail (t :: ts) = (if t.ok then 0 else 1) + countFail ts := by
  unfold countFail
  cases h : t.ok <;> simp [List.filter_cons, h, Nat.add_comm]

theorem sumDur_cons (t : TaskSpec) (ts : List TaskSpec) :
    sumDur (t :: ts) = t.dur + sumDur ts := by
  simp [sumDur]

theorem stepTask_attempted (total : ℕ) (destOf : String → String) (st : DriverState)
    (t : TaskSpec) : (stepTask total destOf st t).attempted = st.attempted + 1 := rfl

theorem stepTask_elapsed (total : ℕ) (destOf : String → String) (st : DriverState)
    (t : TaskSpec) : (stepTask total destOf st t).elapsed = st.elapsed + t.dur := rfl

theorem stepTask_processed (total : ℕ) (destOf : String → String) (st : DriverState)
    (t : TaskSpec) :
    (stepTask total destOf st t).processed
      = if t.ok then st.processed + 1 else st.processed := rfl

theorem stepTask_failed (total : ℕ) (destOf : String → String) (st : DriverState)
    (t : TaskSpec) :
    (stepTask total destOf st t).failed = if t.ok then st.failed else st.failed + 1 := rfl

theorem stepTask_trace (total : ℕ) (destOf : String → String) (st : DriverState)
    (t : TaskSpec) :
    (stepTask total destOf st t).trace
      = st.trace ++ [Ev.mkdir (dirnameStr (destOf t.src)), Ev.run t.src] := rfl

theorem foldl_attempted (total : ℕ) (destOf : String → String) :
    ∀ (ts : List TaskSpec) (st : DriverState),
      (List.foldl (stepTask total destOf) st ts).attempted = st.attempted + ts.length := by
  intro ts
  induction ts with
  | nil => intro st; simp
  | cons t ts ih =>
    intro st
    rw [List.foldl_cons, ih, stepTask_attempted]
    simp
    omega

theorem foldl_processed (total : ℕ) (destOf : String → String) :
    ∀ (ts : List TaskSpec) (st : DriverState),
      (List.foldl (stepTask total destOf) st ts).processed = st.processed + countOk ts := by
  intro ts
  induction ts with
  | nil => intro st; simp [countOk]
  | cons t ts ih =>
    intro st
    rw [List.foldl_cons, ih, stepTask_processed, countOk_cons]
    cases t.ok <;> simp <;> omega

theorem foldl_failed (total : ℕ) (destOf : String → String) :
    ∀ (ts : List TaskSpec) (st : DriverState),
      (List.foldl (stepTask total destOf) st ts).failed = st.failed + countFail ts := by
  intro ts
  induction ts with
  | nil => intro st; simp [countFail]
  | cons t ts ih =>
    intro st
    rw [List.foldl_cons, ih, stepTask_failed, countFail_cons]
    cases t.ok <;> simp <;> omega

theorem foldl_elapsed (total : ℕ) (destOf : String → String) :
    ∀ (ts : List TaskSpec) (st : DriverState),
      (List.foldl (stepTask total destOf) st ts).elapsed = st.elapsed + sumDur ts := by
  intro ts
  induction ts with
  | nil => intro st; simp [sumDur]
  | cons t ts ih =>
    intro st
    rw [List.foldl_cons, ih, stepTask_elapsed, sumDur_cons]
    ring

theorem foldl_trace (total : ℕ) (destOf : String → String) :
    ∀ (ts : List TaskSpec) (st : DriverState),
      (List.foldl (stepTask total destOf) st ts).trace
        = st.trace ++ ts.flatMap fun t =>
            [Ev.mkdir (dirnameStr (destOf t.src)), Ev.run t.src] := by
  intro ts
  induction ts with
  | nil => intro st; simp
  | cons t ts ih =>
    intro st
    rw [List.foldl_cons, ih, stepTask_trace, List.flatMap_cons, List.append_assoc]

theorem foldl_display (total : ℕ) (destOf : String → String) :
    ∀ (ts : List TaskSpec) (st : DriverState), ts ≠ [] → 0 < st.processed + countOk ts →
      (List.foldl (stepTask total destOf) st ts).display
        = some ((st.elapsed + sumDur ts) / ((st.processed + countOk ts : ℕ) : ℚ)
            * ((total : ℚ) - ((st.processed + countOk ts : ℕ) : ℚ))) := by
  intro ts
  induction ts with
  | nil => intro st h; exact absurd rfl h
  | cons t ts ih =>
    intro st _ hpos
    rw [List.foldl_cons]
    by_cases hts : ts = []
    · subst hts
      have hok : countOk [t] = if t.ok then 1 else 0 := by
        rw [countOk_cons]; simp [countOk]
      have hproc : (stepTask total destOf st t).processed = st.processed + countOk [t] := by
        rw [stepTask_processed, hok]; cases t.ok <;> simp
      have hpos2 : 0 < (stepTask total destOf st t).processed := by
        rw [hproc]; exact hpos
      show (stepTask total destOf st t).display = _
      unfold stepTask at hpos2 ⊢
      simp only at hpos2 ⊢
      rw [if_pos hpos2]
      have he : st.elapsed + sumDur [t] = st.elapsed + t.dur := by
        rw [sumDur_cons]; simp [sumDur]
      have hp : st.processed + countOk [t]
          = if t.ok then st.processed + 1 else st.processed := by
        rw [hok]; cases t.ok <;> simp
      rw [he, hp]
    · have hpos3 : 0 < (stepTask total destOf st t).processed + countOk ts := by
        rw [stepTask_processed]
        rw [countOk_cons] at hpos
        cases h : t.ok <;> simp [h] at hpos ⊢ <;> omega
      rw [ih (stepTask total destOf st t) hts hpos3]
      have h1 : (stepTask total destOf st t).elapsed + sumDur ts
          = st.elapsed + sumDur (t :: ts) := by
        rw [stepTask_elapsed, sumDur_cons]; ring
      have h2 : (stepTask total destOf st t).processed + countOk ts
          = st.processed + countOk (t :: ts) := by
        rw [stepTask_processed, countOk_cons]
        cases t.ok <;> simp <;> omega
      rw [h1, h2]

theorem runTasks_no_cancel (total : ℕ) (destOf : String → String) :
    ∀ (ts : List TaskSpec) (st : DriverState),
      runTasks total destOf (fun _ => false) ts st
        = List.foldl (stepTask total destOf) st ts := by
  intro ts
  induction ts with
  | nil => intro st; rfl
  | cons t ts ih =>
    intro st
    rw [runTasks, if_neg (by simp), List.foldl_cons, ih]

theorem runTasks_stop (total : ℕ) (destOf : String → String) (cancel : ℕ → Bool) (m : ℕ) :
    ∀ (ts : List TaskSpec) (st : DriverState),
      (∀ k, st.attempted ≤ k → k < m → cancel k = false) → cancel m = true →
      st.attempted ≤ m → m ≤ st.attempted + ts.length →
      runTasks total destOf cancel ts st
        = List.foldl (stepTask total destOf) st (ts.take (m - st.attempted)) := by
  intro ts
  induction ts with
  | nil =>
    intro st _ _ _ _
    rw [List.take_nil]
    rfl
  | cons t ts ih =>
    intro st h hm h1 h2
    by_cases he : st.attempted = m
    · have : m - st.attempted = 0 := by omega
      rw [this, List.take_zero, List.foldl_nil, runTasks, if_pos (he ▸ hm)]
    · have hlt : st.attempted < m := lt_of_le_of_ne h1 he
      have hc : cancel st.attempted = false := h _ le_rfl hlt
      have harr : m - st.attempted = (m - (st.attempted + 1)) + 1 := by omega
      rw [runTasks, if_neg (by simp [hc]), harr, List.take_succ_cons, List.foldl_cons]
      exact ih (stepTask total destOf st t)
        (fun k hk1 hk2 => h k (by rw [stepTask_attempted] at hk1; omega) hk2)
        hm
        (by rw [stepTask_attempted]; omega)
        (by rw [stepTask_attempted]; simp at h2 ⊢; omega)

/-- Every run of the loop is a fold over some initial segment of the
task list: the tasks attempted, in list order. -/
theorem runTasks_processes_initial_segment (total : ℕ) (destOf : String → String)
    (cancel : ℕ → Bool) :
    ∀ (ts : List TaskSpec) (st : DriverState),
      ∃ l rest, ts = l ++ rest ∧
        runTasks total destOf cancel ts st = List.foldl (stepTask total destOf) st l := by
  intro ts
  induction ts with
  | nil => intro st; exact ⟨[], [], rfl, rfl⟩
  | cons t ts ih =>
    intro st
    by_cases hc : cancel st.attempted = true
    · exact ⟨[], t :: ts, rfl, by rw [runTasks, if_pos hc, List.foldl_nil]⟩
    · obtain ⟨l, rest, hsplit, heq⟩ := ih (stepTask total destOf st t)
      refine ⟨t :: l, rest, by rw [hsplit]; rfl, ?_⟩
      rw [runTasks, if_neg hc, List.foldl_cons, heq]

/-- In a trace made of mkdir-run pairs, every run event is preceded by
the mkdir of its task's destination directory. -/
theorem pairs_mkdir_before_run (destOf : String → String) :
    ∀ (l : List TaskSpec) (p : ℕ) (s : String),
      (l.flatMap fun t => [Ev.mkdir (dirnameStr (destOf t.src)), Ev.run t.src]).get? p
        = some (Ev.run s) →
      ∃ q, q < p ∧
        (l.flatMap fun t => [Ev.mkdir (dirnameStr (destOf t.src)), Ev.run t.src]).get? q
          = some (Ev.mkdir (dirnameStr (destOf s))) := by
  intro l
  induction l with
  | nil => intro p s h; simp at h
  | cons t ts ih =>
    intro p s h
    rw [List.flatMap_cons] at h ⊢
    match p with
    | 0 => simp at h
    | 1 =>
      simp at h
      exact ⟨0, by omega, by simp [h]⟩
    | (n + 2) =>
      obtain ⟨q, hq1, hq2⟩ := ih n s (by simpa using h)
      exact ⟨q + 2, by omega, by simpa using hq2⟩

theorem string_append_left_cancel (a x y : String) (h : a ++ x = a ++ y) : x = y := by
  have h2 := congrArg String.data h
  simp only [String.data_append] at h2
  exact String.ext (List.append_cancel_left h2)

theorem string_append_right_cancel (x y s : String) (h : x ++ s = y ++ s) : x = y := by
  have h2 := congrArg String.data h
  simp only [String.data_append] at h2
  exact String.ext (List.append_cancel_right h2)

/-! ## C4: time-remaining estimate (amended) -/

/-- C4 (amended).  After any loop iteration of an uncancelled batch in
which at least one task has succeeded so far, the displayed estimate is
`(elapsed / successes) * (total - successes)`: the divisor counts only
successfully processed tasks and already-failed tasks remain in the
multiplier.  For failure-free prefixes this coincides with
`(elapsed / completed) * (not yet attempted)`. -/
theorem claim_C4 (destOf : String → String) (tasks : List TaskSpec) (k : ℕ)
    (hpos : 0 < countOk (tasks.take k)) :
    displayAfterPrefix destOf tasks k
      = some (sumDur (tasks.take k) / ((countOk (tasks.take k) : ℕ) : ℚ)
          * ((tasks.length : ℚ) - ((countOk (tasks.take k) : ℕ) : ℚ))) := by
  have hne : tasks.take k ≠ [] := by
    intro h
    rw [h] at hpos
    simp [countOk] at hpos
  unfold displayAfterPrefix
  rw [runTasks_no_cancel, foldl_display tasks.length destOf (tasks.take k) initState hne
    (by simpa [initState] using hpos)]
  simp [initState]

/-- Witness for C4: four tasks, the first succeeding after 10 seconds:
the displayed estimate is 10 / 1 * (4 - 1) = 30 seconds. -/
theorem claim_C4_witness :
    displayAfterPrefix (fun s => s)
      [⟨"a", 10, true⟩, ⟨"b", 1, true⟩, ⟨"c", 1, true⟩, ⟨"d", 1, true⟩] 1 = some 30 := by
  have h := claim_C4 (fun s => s)
    [⟨"a", 10, true⟩, ⟨"b", 1, true⟩, ⟨"c", 1, true⟩, ⟨"d", 1, true⟩] 1 (by decide)
  rw [h]
  have h1 : countOk (List.take 1
      [⟨"a", 10, true⟩, ⟨"b", 1, true⟩, ⟨"c", 1, true⟩, ⟨"d", 1, true⟩] : List TaskSpec) = 1 := by
    decide
  have h2 : sumDur (List.take 1
      [⟨"a", 10, true⟩, ⟨"b", 1, true⟩, ⟨"c", 1, true⟩, ⟨"d", 1, true⟩] : List TaskSpec) = 10 := by
    norm_num [sumDur, List.take]
  rw [h1, h2]
  norm_num

/-- Counterexample for C4 as stated.  Three tasks; task 1 fails after
10 s, task 2 succeeds after another 10 s.  After these 2 attempts the
elapsed time is 20 s, one task is not yet attempted, and the claim's
formula `(elapsed / tasks_completed_so_far) * tasks_not_yet_attempted`
gives 20 / 1 * 1 = 20 (completed = succeeded) or 20 / 2 * 1 = 10
(completed = attempted) — but the code displays 20 / 1 * (3 - 1) = 40,
because the failed task stays in the remaining-files multiplier. -/
theorem claim_C4_counterexample :
    displayAfterPrefix (fun s => s)
      [⟨"a", 10, false⟩, ⟨"b", 10, true⟩, ⟨"c", 5, true⟩] 2 = some 40 ∧
    (40 : ℚ) ≠ 20 / 1 * 1 ∧ (40 : ℚ) ≠ 20 / 2 * 1 := by
  refine ⟨?_, by norm_num, by norm_num⟩
  simp +decide [displayAfterPrefix, runTasks, stepTask, initState]
  norm_num

/-! ## C5: partial failure does not abort the batch -/

/-- C5.  With no cancellation the loop attempts every task in list
order whatever the per-task results are; the final state is Completed,
`processed` counts the successes and `failed` the non-zero exits.  In
particular with 3 tasks of which task 2 fails: Completed, processed 2,
failed 1. -/
theorem claim_C5 (destOf : String → String) (tasks : List TaskSpec) :
    (runBatch destOf (fun _ => false) tasks).2 = .Completed ∧
    (runBatch destOf (fun _ => false) tasks).1.processed = countOk tasks ∧
    (runBatch destOf (fun _ => false) tasks).1.failed = countFail tasks ∧
    (runBatch destOf (fun _ => false) tasks).1.trace
      = tasks.flatMap (fun t => [Ev.mkdir (dirnameStr (destOf t.src)), Ev.run t.src]) ∧
    (runBatch destOf (fun _ => false)
      [⟨"a", 1, true⟩, ⟨"b", 1, false⟩, ⟨"c", 1, true⟩]).2 = .Completed ∧
    (runBatch destOf (fun _ => false)
      [⟨"a", 1, true⟩, ⟨"b", 1, false⟩, ⟨"c", 1, true⟩]).1.processed = 2 ∧
    (runBatch destOf (fun _ => false)
      [⟨"a", 1, true⟩, ⟨"b", 1, false⟩, ⟨"c", 1, true⟩]).1.failed = 1 := by
  have hstatus : ∀ ts : List TaskSpec, (runBatch destOf (fun _ => false) ts).2 = .Completed := by
    intro ts
    unfold runBatch
    simp
  have hproc : ∀ ts : List TaskSpec,
      (runBatch destOf (fun _ => false) ts).1.processed = countOk ts := by
    intro ts
    unfold runBatch
    rw [runTasks_no_cancel, foldl_processed]
    simp [initState]
  have hfail : ∀ ts : List TaskSpec,
      (runBatch destOf (fun _ => false) ts).1.failed = countFail ts := by
    intro ts
    unfold runBatch
    rw [runTasks_no_cancel, foldl_failed]
    simp [initState]
  refine ⟨hstatus tasks, hproc tasks, hfail tasks, ?_, hstatus _, ?_, ?_⟩
  · unfold runBatch
    rw [runTasks_no_cancel, foldl_trace]
    simp [initState]
  · rw [hproc]; decide
  · rw [hfail]; decide

/-! ## C6: cooperative cancellation at task boundaries -/

/-- C6.  If the cancellation flag is first observed set at task
boundary `m` (with `m ≤ n`), the loop attempts exactly the first `m`
tasks — each attempted task runs to completion, no later task is ever
started — and the batch terminates in state Cancelled.  Cancellation
requested during task 2 of 3 means `m = 2`: task 2 finishes, task 3 is
never started. -/
theorem claim_C6 (destOf : String → String) (cancel : ℕ → Bool) (tasks : List TaskSpec)
    (m : ℕ) (hfirst : ∀ k, k < m → cancel k = false) (hm : cancel m = true)
    (hle : m ≤ tasks.length) :
    (runBatch destOf cancel tasks).1.attempted = m ∧
    (runBatch destOf cancel tasks).1.trace
      = (tasks.take m).flatMap
          (fun t => [Ev.mkdir (dirnameStr (destOf t.src)), Ev.run t.src]) ∧
    (runBatch destOf cancel tasks).2 = .Cancelled := by
  have hrun : runTasks tasks.length destOf cancel tasks initState
      = List.foldl (stepTask tasks.length destOf) initState (tasks.take m) := by
    have := runTasks_stop tasks.length destOf cancel m tasks initState
      (fun k _ hk => hfirst k hk) hm (by simp [initState]) (by simp [initState]; omega)
    simpa [initState] using this
  have hatt : (runBatch destOf cancel tasks).1.attempted = m := by
    unfold runBatch
    rw [hrun, foldl_attempted]
    simp [initState]
    omega
  refine ⟨hatt, ?_, ?_⟩
  · unfold runBatch
    rw [hrun, foldl_trace]
    simp [initState]
  · unfold runBatch
    simp only
    rw [show (runTasks tasks.length destOf cancel tasks initState).attempted = m from hatt, hm]
    simp

/-- Witness for C6: three tasks, the flag set from boundary 2 on
(requested while task 2 runs): tasks 1 and 2 are attempted, task 3 is
never started, and the final state is Cancelled. -/
theorem claim_C6_witness :
    (runBatch (fun s => s) (fun k => decide (2 ≤ k))
      [⟨"a", 1, true⟩, ⟨"b", 1, true⟩, ⟨"c", 1, true⟩]).1.attempted = 2 ∧
    (runBatch (fun s => s) (fun k => decide (2 ≤ k))
      [⟨"a", 1, true⟩, ⟨"b", 1, true⟩, ⟨"c", 1, true⟩]).1.trace
      = [Ev.mkdir "", Ev.run "a", Ev.mkdir "", Ev.run "b"] ∧
    (runBatch (fun s => s) (fun k => decide (2 ≤ k))
      [⟨"a", 1, true⟩, ⟨"b", 1, true⟩, ⟨"c", 1, true⟩]).2 = .Cancelled := by
  have h := claim_C6 (fun s => s) (fun k => decide (2 ≤ k))
    [⟨"a", 1, true⟩, ⟨"b", 1, true⟩, ⟨"c", 1, true⟩] 2
    (by intro k hk; simp; omega) (by decide) (by decide)
  refine ⟨h.1, ?_, h.2.2⟩
  rw [h.2.1]
  decide

/-! ## C8: destination directories and uniqueness (amended) -/

/-- C8 (amended).  In every batch trace each run event is preceded by
the creation of that task's destination directory; and the derived
destination paths of two sources are distinct whenever their
extension-stripped relative paths are distinct.  (Two sources differing
only in extension collide, which is what the counterexample shows.) -/
theorem claim_C8 (outDir : String) (fmt : OutputFormat) (cancel : ℕ → Bool)
    (tasks : List TaskSpec) :
    (∀ p s,
      (runBatch (derivedDest outDir fmt) cancel tasks).1.trace.get? p
        = some (Ev.run s) →
      ∃ q, q < p ∧
        (runBatch (derivedDest outDir fmt) cancel tasks).1.trace.get? q
          = some (Ev.mkdir (dirnameStr (derivedDest outDir fmt s)))) ∧
    (∀ r1 r2 : String, pathStem r1.data ≠ pathStem r2.data →
      derivedDest outDir fmt r1 ≠ derivedDest outDir fmt r2) := by
  constructor
  · intro p s hp
    obtain ⟨l, rest, _, heq⟩ := runTasks_processes_initial_segment tasks.length
      (derivedDest outDir fmt) cancel tasks initState
    have htrace : (runBatch (derivedDest outDir fmt) cancel tasks).1.trace
        = l.flatMap fun t =>
            [Ev.mkdir (dirnameStr (derivedDest outDir fmt t.src)), Ev.run t.src] := by
      unfold runBatch
      rw [heq, foldl_trace]
      simp [initState]
    rw [htrace] at hp
    obtain ⟨q, hq1, hq2⟩ := pairs_mkdir_before_run (derivedDest outDir fmt) l p s hp
    rw [htrace]
    exact ⟨q, hq1, hq2⟩
  · intro r1 r2 hstem heq
    apply hstem
    unfold derivedDest at heq
    have hbase : String.mk (pathStem r1.data) ++ "." ++ fmt.str
        = String.mk (pathStem r2.data) ++ "." ++ fmt.str := by
      unfold pathJoin at heq
      by_cases h0 : outDir = ""
      · rw [if_pos h0, if_pos h0] at heq
        exact heq
      · rw [if_neg h0, if_neg h0] at heq
        by_cases h1 : outDir.data.getLast? = some '/'
        · rw [if_pos h1, if_pos h1] at heq
          exact string_append_left_cancel _ _ _ heq
        · rw [if_neg h1, if_neg h1] at heq
          exact string_append_left_cancel (outDir ++ "/") _ _ heq
    have h2 := string_append_right_cancel _ _ _ hbase
    have h3 := string_append_right_cancel _ _ _ h2
    have := congrArg String.data h3
    simpa using this

/-- Witness for C8: a one-task batch over `d/a.mkv` with output format
mp4: the trace's run event at index 1 is preceded by the mkdir of
`out/d`; and sources with distinct stems get distinct destinations. -/
theorem claim_C8_witness :
    (∃ q, q < 1 ∧
      (runBatch (derivedDest "out" .mp4) (fun _ => false)
        [⟨"d/a.mkv", 1, true⟩]).1.trace.get? q = some (Ev.mkdir "out/d")) ∧
    derivedDest "out" .mp4 "b.mkv" ≠ derivedDest "out" .mp4 "a.mkv" := by
  have h := claim_C8 "out" .mp4 (fun _ => false) [⟨"d/a.mkv", 1, true⟩]
  constructor
  · obtain ⟨q, hq1, hq2⟩ := h.1 1 "d/a.mkv" (by decide)
    refine ⟨q, hq1, ?_⟩
    have : dirnameStr (derivedDest "out" OutputFormat.mp4 "d/a.mkv") = "out/d" := by decide
    rw [this] at hq2
    exact hq2
  · exact h.2 "b.mkv" "a.mkv" (by decide)

/-- Counterexample for C8 as stated: the distinct sources `a.mkv` and
`a.mp4` derive the same destination `out/a.mp4` when the output format
is mp4, so destination paths are not unique per unique source path. -/
theorem claim_C8_counterexample :
    derivedDest "out" .mp4 "a.mkv" = derivedDest "out" .mp4 "a.mp4" ∧
    ("a.mkv" : String) ≠ "a.mp4" := by
  exact ⟨by decide, by decide⟩

/-! ## C7: probe failure handling (amended) -/

/-- C7 (amended).  A probe that completes but whose stdout does not
parse as a float yields duration 0 and only disables the telemetry
percentage: the encoder still runs, the task's outcome is the encoder's
exit code alone, and no error is attributed to the probe.  A probe
invocation that itself raises (non-zero ffprobe exit), however, is
caught by the outer handler: the task is marked failed, an error is
reported, and the encoder is never started. -/
theorem claim_C7 (out : String) (enc : EncodeRun)
    (hp : parsePyFloat out.data = none) :
    (compress_video (.success out) enc).encoderStarted = true ∧
    ((compress_video (.success out) enc).ok = true ↔ enc.exitCode = 0) ∧
    (compress_video (.success out) enc).updates
      = (if enc.exitCode = 0 then [(100 : ℚ)] else []) ∧
    ((compress_video (.success out) enc).errorReported = true ↔ enc.exitCode ≠ 0) ∧
    (∀ e : EncodeRun, compress_video .failure e
      = { ok := false, updates := [], encoderStarted := false, errorReported := true }) := by
  have hdur : ((parsePyFloat out.data).getD 0 : ℚ) = 0 := by rw [hp]; rfl
  have hupd : progressUpdates ((parsePyFloat out.data).getD 0) enc.lines = [] := by
    rw [hdur]
    unfold progressUpdates
    rw [List.filterMap_eq_nil_iff]
    intro line _
    exact processLine_zero line
  unfold compress_video
  simp only [hupd]
  by_cases hz : enc.exitCode = 0
  · rw [if_pos hz]
    refine ⟨rfl, by simp [hz], by simp [hz], by simp [hz], by simp⟩
  · rw [if_neg hz]
    refine ⟨rfl, by simp [hz], by simp [hz], by simp [hz], by simp⟩

/-- Witness for C7: probe output "N/A" is unparseable; with a clean
encoder exit the task still runs and succeeds, emitting only the final
100 update; and a raising probe fails the task without starting the
encoder. -/
theorem claim_C7_witness :
    (compress_video (.success "N/A") ⟨["out_time_ms=1000000".data], 0⟩).encoderStarted = true ∧
    (compress_video (.success "N/A") ⟨["out_time_ms=1000000".data], 0⟩).ok = true ∧
    (compress_video (.success "N/A") ⟨["out_time_ms=1000000".data], 0⟩).updates = [(100 : ℚ)] ∧
    compress_video .failure ⟨["out_time_ms=1000000".data], 0⟩
      = { ok := false, updates := [], encoderStarted := false, errorReported := true } := by
  have h := claim_C7 "N/A" ⟨["out_time_ms=1000000".data], 0⟩ (by decide)
  refine ⟨h.1, h.2.1.mpr rfl, ?_, h.2.2.2.2 _⟩
  rw [h.2.2.1]
  simp

/-- Counterexample for C7 as stated: when the probe invocation fails
(raises), the code does not degrade to an unknown duration — it marks
the task failed, reports an error, and never starts the encoder, so the
task is not "still run" and is marked failed because of the probe. -/
theorem claim_C7_counterexample :
    (compress_video .failure ⟨["out_time_ms=1000000".data], 0⟩).ok = false ∧
    (compress_video .failure ⟨["out_time_ms=1000000".data], 0⟩).encoderStarted = false ∧
    (compress_video .failure ⟨["out_time_ms=1000000".data], 0⟩).errorReported = true := by
  exact ⟨rfl, rfl, rfl⟩

/-! ## C9: command builder shape and purity -/

/-- C9.  The executed argument vector is exactly
`ffmpeg -progress pipe:1 -i <input> -y [-vf scale=WxH] <codec args>
-c:a aac -b:a 128k <output>`; the scale pair is present exactly when the
resolution setting is not Original; and the builder is a pure function
of (settings, source, destination) — two invocations on the same
arguments are the same term, hence identical vectors. -/
theorem claim_C9 (q : QualityPreset) (crf : String) (r : Resolution)
    (fmt : OutputFormat) (input output : String) :
    fullCommand q crf r fmt input output
      = ["ffmpeg", "-progress", "pipe:1", "-i", input, "-y"] ++ scaleArgs r
        ++ codecArgs fmt (if q = .Custom then crf else QUALITY_LEVELS q)
        ++ ["-c:a", "aac", "-b:a", "128k"] ++ [output] ∧
    (scaleArgs r ≠ [] ↔ r ≠ .Original) ∧
    fullCommand q crf r fmt input output = fullCommand q crf r fmt input output := by
  refine ⟨?_, ?_, rfl⟩
  · unfold fullCommand get_ffmpeg_command
    simp only [List.cons_append, List.nil_append, List.insertIdx_succ_cons,
      List.insertIdx_zero]
  · cases r <;> exact by decide

end MVC
